import Mathlib

/-!
Verification development for the gym-dashboard analytics core
(`src/app.py`, `src/garmin_integration.py`).

The Python code is shallowly embedded: free-form notation strings are
modelled as `List Char` (ASCII view of Python `str`), Python `float`
values produced by the parser as `ℚ` (every value the parser can build is
a finite decimal), pandas dataframes as Lean lists of structures holding
the columns the embedded functions actually read, and Python exceptions
as `Except Unit`.
-/

instance {ε α : Type} [DecidableEq ε] [DecidableEq α] : DecidableEq (Except ε α) := by
  intro x y
  cases x with
  | ok a =>
      cases y with
      | ok b =>
          exact if h : a = b then .isTrue (by rw [h])
            else .isFalse (fun hc => h (Except.ok.inj hc))
      | error e => exact .isFalse (fun hc => Except.noConfusion hc)
  | error e =>
      cases y with
      | ok b => exact .isFalse (fun hc => Except.noConfusion hc)
      | error f =>
          exact if h : e = f then .isTrue (by rw [h])
            else .isFalse (fun hc => h (Except.error.inj hc))

/-! ## Character-level helpers (Python `str` methods used by `load_sheet_data`) -/

/-- ASCII decimal digit test, modelling Python `str.isdigit` on the ASCII
characters that occur in hand-entered workout notation. -/
def isAsciiDigit (c : Char) : Bool := '0' ≤ c && c ≤ '9'

/-- ASCII whitespace, modelling the characters Python `str.strip` removes. -/
def isSpaceChar (c : Char) : Bool :=
  c = ' ' || c = '\t' || c = '\n' || c = '\r'

/-- Python `str.strip`: drop leading and trailing whitespace. -/
def strip (l : List Char) : List Char :=
  ((l.dropWhile isSpaceChar).reverse.dropWhile isSpaceChar).reverse

/-- Python `str.lower` (ASCII letters). -/
def lower (l : List Char) : List Char := l.map Char.toLower

/-- Python `str.split(';')`: auxiliary accumulator form. -/
def splitSemiAux : List Char → List Char → List (List Char)
  | [], acc => [acc.reverse]
  | c :: t, acc =>
      if c = ';' then acc.reverse :: splitSemiAux t []
      else splitSemiAux t (c :: acc)

/-- Python `str.split(';')`: always returns at least one token, and empty
tokens between adjacent separators are kept. -/
def splitSemi (l : List Char) : List (List Char) := splitSemiAux l []

/-- Substring test, modelling Python `needle in hay`. -/
def containsSub (needle hay : List Char) : Bool :=
  hay.tails.any (fun t => needle.isPrefixOf t)

/-- Numeric value of a digit string, modelling Python `int` on a string of
decimal digits. -/
def digitsVal (l : List Char) : ℕ :=
  l.foldl (fun a c => 10 * a + (c.toNat - 48)) 0

/-- Number of dots in a token (used to model when Python `float` accepts a
digits-and-dots string). -/
def countDots (l : List Char) : ℕ := l.count '.'

/-- Value of Python `float w` for a string made of decimal digits and at
most one dot: integer part plus fractional part. -/
def floatVal (w : List Char) : ℚ :=
  let ip := w.takeWhile (fun c => c != '.')
  let fp := (w.dropWhile (fun c => c != '.')).drop 1
  if fp.isEmpty then (digitsVal ip : ℚ)
  else (digitsVal ip : ℚ) + (digitsVal fp : ℚ) / (10 ^ fp.length)

/-- The guard `w.replace('.', '').isdigit()` from `parse_weights`
(`app.py` line 116): after removing every dot the token is non-empty and
all digits. -/
def digitGuard (w : List Char) : Bool :=
  let d := w.filter (fun c => c != '.')
  !d.isEmpty && d.all isAsciiDigit

def bodyL : List Char := ['b', 'o', 'd', 'y']

def bandL : List Char := ['b', 'a', 'n', 'd']

/-! ## Notation Parser (`app.py` lines 87-119, inside `load_sheet_data`) -/

/-- Embedding of `parse_reps` (`app.py` lines 87-90): split on `;`, keep
the tokens that strip to a non-empty all-digit string, parse them. -/
def parse_reps (x : List Char) : List ℕ :=
  if strip x = [] then []
  else (splitSemi x).filterMap (fun r =>
    let r₁ := strip r
    if !r₁.isEmpty && r₁.all isAsciiDigit then some (digitsVal r₁) else none)

/-- The per-token loop of `parse_weights` (`app.py` lines 108-117).
A token containing `body` appends 120 (130 with `band`); a token passing
the digit guard is given to Python `float`, which raises `ValueError`
(modelled by `Except.error ()`) when the token holds two or more dots;
every other token is skipped. -/
def procTokens : List (List Char) → Except Unit (List ℚ)
  | [] => .ok []
  | w₀ :: rest =>
      let w := lower (strip w₀)
      if containsSub bodyL w then
        (procTokens rest).map
          (fun ws => (if containsSub bandL w then (130 : ℚ) else 120) :: ws)
      else if digitGuard w then
        if countDots w ≤ 1 then (procTokens rest).map (fun ws => floatVal w :: ws)
        else .error ()
      else procTokens rest

/-- Embedding of `parse_weights` (`app.py` lines 92-119). Blank input gives
`[]`; a single token containing `body` with more than one set broadcasts
the 70-pound default (80 with `band`); otherwise each `;`-token is
processed by `procTokens`. -/
def parse_weights (x : List Char) (numSets : ℕ) : Except Unit (List ℚ) :=
  if strip x = [] then .ok []
  else
    match splitSemi x with
    | [w₀] =>
        if containsSub bodyL (lower w₀) && decide (1 < numSets) then
          if containsSub bandL (lower w₀) then .ok (List.replicate numSets 80)
          else .ok (List.replicate numSets 70)
        else procTokens [w₀]
    | items => procTokens items

/-- Embedding of the set counter (`app.py` line 122): the number of
`;`-separated tokens of the raw `Reps` cell, counting empty and
non-numeric tokens, or 0 for blank input. -/
def sets_count (x : List Char) : ℕ :=
  if strip x = [] then 0 else (splitSemi x).length

/-! ## Set Normalizer (`app.py` lines 130-136, inside `load_sheet_data`) -/

/-- Embedding of the `volume_per_set` column (`app.py` lines 131-134):
`[r * w for r, w in zip(row.reps_list, row.weights_list)]`. -/
def volume_per_set (R : List ℕ) (W : List ℚ) : List ℚ :=
  List.zipWith (fun (r : ℕ) (w : ℚ) => (r : ℚ) * w) R W

/-- Embedding of the `total_volume` column (`app.py` line 135): the sum of
the per-set volumes. -/
def total_volume (R : List ℕ) (W : List ℚ) : ℚ := (volume_per_set R W).sum

/-- Embedding of the `max_weight` column (`app.py` line 136):
`max(x) if x else 0` on the weights list. -/
def max_weight : List ℚ → ℚ
  | [] => 0
  | w :: t => t.foldl max w

/-! ## Tracker source (`garmin_integration.py` lines 113-118,
`get_combined_workout_data`) -/

/-- One tracker exercise-set record as read by the unit-conversion step. -/
structure GarminSet where
  exercise_name : String
  reps : ℕ
  weight : ℚ
  weight_unit : String
deriving DecidableEq, Repr

/-- The pound factor `0.453592` from `garmin_integration.py` line 117. -/
def poundFactor : ℚ := 453592 / 1000000

/-- Embedding of the unit-conversion step of `get_combined_workout_data`
(`garmin_integration.py` lines 115-117): rows whose `weight_unit` is
`POUND` have their weight multiplied by `0.453592`; every other row is
left unchanged. -/
def convert_units (rows : List GarminSet) : List GarminSet :=
  rows.map (fun r =>
    if r.weight_unit = "POUND" then { r with weight := r.weight * poundFactor }
    else r)

/-! ## Source Merger (`app.py` lines 295-330, `combine_workout_data`, and
lines 147-174, `load_combined_data`) -/

/-- A pandas cell of an object column: either a raw string (spreadsheet
side) or a number (tracker side); pandas equality never identifies the
two. -/
inductive Cell where
  | str : String → Cell
  | num : ℚ → Cell
deriving DecidableEq, Repr

/-- One row of the merged schema, holding the four deduplication-key
columns `date`, `Exercise`, `Reps`, `Weight` read by
`combine_workout_data`, plus a payload standing for the remaining
columns. -/
structure MRow where
  date : ℤ
  exercise : String
  reps : Cell
  weight : Cell
  payload : ℤ
deriving DecidableEq, Repr

/-- The deduplication key of `drop_duplicates` (`app.py` lines 325-328):
`(date, Exercise, Reps, Weight)`. -/
def rowKey (r : MRow) : ℤ × String × Cell × Cell :=
  (r.date, r.exercise, r.reps, r.weight)

/-- Embedding of pandas `drop_duplicates(subset=..., keep='last')`: a row
is kept exactly when no later row shares its key, and kept rows stay in
order. -/
def dedupKeepLast : List MRow → List MRow
  | [] => []
  | r :: rest =>
      if rest.any (fun s => decide (rowKey s = rowKey r)) then dedupKeepLast rest
      else r :: dedupKeepLast rest

/-- Embedding of `combine_workout_data` (`app.py` lines 295-330). An empty
tracker table returns the sheet table unchanged (line 297); otherwise the
tracker rows, already projected onto the sheet schema (lines 300-322 only
rename columns, derive per-row lists and project to shared columns), are
concatenated after the sheet rows, sorted by date and deduplicated on
`(date, Exercise, Reps, Weight)` keeping the last occurrence. The sort is
modelled by the stable `insertionSort`, one admissible behaviour of
`sort_values('date')`. -/
def combine_workout_data (sheets garmin : List MRow) : List MRow :=
  if garmin.isEmpty then sheets
  else dedupKeepLast (List.insertionSort (fun a b => a.date ≤ b.date) (sheets ++ garmin))

/-- Embedding of the source dispatch of `load_combined_data`
(`app.py` lines 147-174): the sheet table is taken as the working table
(empty or not); a non-empty tracker table is merged into a non-empty
working table and passes through when the working table is empty; an
empty tracker table leaves the working table as the result. -/
def load_combined_data (sheets garmin : List MRow) : List MRow :=
  if garmin.isEmpty then sheets
  else if sheets.isEmpty then garmin
  else combine_workout_data sheets garmin

/-! ## Metrics Engine: streak (`app.py` lines 176-191, `calculate_streak`) -/

/-- Ascending lexicographic order on ISO `(year, week)` pairs, the order
in which `sort_values(['year', 'week'])` iterates the grouped weeks. -/
def lexLe (a b : ℤ × ℤ) : Prop :=
  a.1 < b.1 ∨ (a.1 = b.1 ∧ a.2 ≤ b.2)

instance : DecidableRel lexLe := by
  intro a b
  unfold lexLe
  infer_instance

instance : IsTotal (ℤ × ℤ) lexLe := by
  constructor
  intro a b
  unfold lexLe
  omega

instance : IsTrans (ℤ × ℤ) lexLe := by
  constructor
  intro a b c
  unfold lexLe
  omega

/-- Embedding of `groupby(['year', 'week']).size()` followed by
`sort_values(['year', 'week'])` (`app.py` lines 180, 184): the distinct
ISO `(year, week)` keys in ascending order, each with the number of rows
carrying it. -/
def weekly_counts (dates : List (ℤ × ℤ)) : List ((ℤ × ℤ) × ℕ) :=
  (List.insertionSort lexLe dates.dedup).map (fun k => (k, dates.count k))

/-- The accumulator loop of `calculate_streak` (`app.py` lines 182-189):
`current_streak` grows on a week with at least 5 rows and resets to 0
otherwise; `streak` records the maximum reached. -/
def streakLoop : ℕ → ℕ → List ℕ → ℕ
  | best, _, [] => best
  | best, cur, c :: rest =>
      if 5 ≤ c then streakLoop (max best (cur + 1)) (cur + 1) rest
      else streakLoop best 0 rest

/-- Embedding of `calculate_streak` (`app.py` lines 176-191) viewed
through the ISO `(year, week)` pair of each row's date (the only aspect
of the date the function reads, via `dt.isocalendar()`). -/
def calculate_streak (dates : List (ℤ × ℤ)) : ℕ :=
  streakLoop 0 0 ((weekly_counts dates).map Prod.snd)

/-- Length of the leading run of `true` values, the specification-side
helper for the longest-run reading of the streak. -/
def leadRun : List Bool → ℕ
  | [] => 0
  | false :: _ => 0
  | true :: t => leadRun t + 1

/-- Length of the longest run of consecutive `true` values: the maximum
over all suffixes of the leading run. -/
def maxRun : List Bool → ℕ
  | [] => 0
  | b :: t => max (leadRun (b :: t)) (maxRun t)

/-! ## Metrics Engine: dataframe state of `calculate_streak`
(`app.py` lines 178-179 mutate the caller's table) -/

/-- One row of the dataframe handed to `calculate_streak`: its date,
viewed as the ISO `(year, week)` pair, and the remaining cells as an
association list from column name to value. -/
structure DRow where
  date : ℤ × ℤ
  cells : List (String × ℤ)
deriving DecidableEq, Repr

/-- A dataframe with an explicit column list, to observe schema changes. -/
structure DF where
  cols : List String
  rows : List DRow
deriving DecidableEq, Repr

/-- Update or append a key in an association list, modelling column
assignment on one row. -/
def upsert : List (String × ℤ) → String → ℤ → List (String × ℤ)
  | [], k, v => [(k, v)]
  | (k₁, v₁) :: t, k, v =>
      if k₁ = k then (k, v) :: t else (k₁, v₁) :: upsert t k v

/-- Pandas column assignment `df[name] = ...`: every row gets the value
`f row`, and the column name is appended to the schema when new. -/
def set_column (df : DF) (name : String) (f : DRow → ℤ) : DF :=
  { cols := if name ∈ df.cols then df.cols else df.cols ++ [name],
    rows := df.rows.map (fun r => { r with cells := upsert r.cells name (f r) }) }

/-- Embedding of `calculate_streak` together with its effect on the input
dataframe: lines 178-179 assign the `week` and `year` columns in place
before grouping, so the function returns the streak and weekly counts
alongside the post-call state of its input table. -/
def calculate_streak_df (df : DF) : (ℕ × List ((ℤ × ℤ) × ℕ)) × DF :=
  let df₂ := set_column (set_column df "week" (fun r => r.date.2)) "year" (fun r => r.date.1)
  ((calculate_streak (df₂.rows.map (fun r => r.date)),
    weekly_counts (df₂.rows.map (fun r => r.date))), df₂)

/-! ## Metrics Engine: personal records (`app.py` lines 270-293,
`calculate_pr_table`) and progress series (lines 216-221,
`create_progress_chart`) -/

/-- One row of the normalized table as read by the metrics functions. -/
structure NRow where
  exercise : String
  date : ℤ
  reps_list : List ℕ
  weights_list : List ℚ
  max_weight_col : ℚ
  total_volume_col : ℚ
deriving DecidableEq, Repr

/-- One exploded personal-record row of `calculate_pr_table`. -/
structure PRRow where
  exercise : String
  reps : ℕ
  weight : ℚ
  date : ℤ
  volume : ℚ
deriving DecidableEq, Repr

/-- Pandas `Series.unique`, accumulator form: keep an element when it has
not been seen yet. -/
def uniqueAux : List String → List String → List String
  | [], _ => []
  | x :: t, seen =>
      if x ∈ seen then uniqueAux t seen else x :: uniqueAux t (x :: seen)

/-- Pandas `Series.unique`: first occurrences, in order of appearance. -/
def uniqueFirst (l : List String) : List String := uniqueAux l []

/-- Descending sort on one rational key followed by
`groupby('Exercise').first()` (`app.py` lines 290-291): for each exercise
in the groupby's sorted key order, the first row of the sorted table with
that exercise. -/
def groupFirstBy (keyOf : PRRow → ℚ) (l : List PRRow) : List PRRow :=
  let sorted := List.insertionSort (fun a b => keyOf b ≤ keyOf a) l
  (List.insertionSort (fun a b => a ≤ b) (uniqueFirst (l.map (fun r => r.exercise)))).filterMap
    (fun e => (sorted.filter (fun r => r.exercise == e)).head?)

/-- Embedding of `calculate_pr_table` (`app.py` lines 270-293). The
exploded record list is built per exercise and per `(reps, weight)` pair;
when it is empty, `pd.DataFrame([])` has no columns and the assignment
`pr_df['Volume'] = pr_df['Reps'] * pr_df['Weight']` raises `KeyError`,
modelled by `Except.error ()`; otherwise the max-weight and max-volume
tables are produced. -/
def calculate_pr_table (df : List NRow) : Except Unit (List PRRow × List PRRow) :=
  let prs := (uniqueFirst (df.map (fun r => r.exercise))).flatMap (fun ex =>
    (df.filter (fun r => r.exercise == ex)).flatMap (fun row =>
      (row.reps_list.zip row.weights_list).map (fun rw =>
        { exercise := ex, reps := rw.1, weight := rw.2, date := row.date,
          volume := (rw.1 : ℚ) * rw.2 : PRRow })))
  if prs.isEmpty then .error ()
  else .ok (groupFirstBy (fun r => r.weight) prs, groupFirstBy (fun r => r.volume) prs)

/-- Embedding of `create_progress_chart` (`app.py` lines 216-221): `none`
(Python `None`) when the table is empty or the exercise absent, otherwise
the exercise's time-ordered `(date, max_weight, total_volume)` triples. -/
def create_progress_chart (df : List NRow) (ex : String) : Option (List (ℤ × ℚ × ℚ)) :=
  if df.isEmpty || !(df.any (fun r => r.exercise == ex)) then none
  else some ((df.filter (fun r => r.exercise == ex)).map
    (fun r => (r.date, r.max_weight_col, r.total_volume_col)))

/-! ## Auxiliary definitions used in the claim theorems -/

instance : Inhabited GarminSet := ⟨⟨"", 0, 0, ""⟩⟩

/-- A two-column dataframe used to exhibit the in-place mutation. -/
def exDF : DF :=
  { cols := ["date", "Exercise"]
    rows := [⟨(2024, 1), [("Exercise", 3)]⟩] }

/-- Keep only the cells of columns other than `week` and `year`. -/
def dropWY (cells : List (String × ℤ)) : List (String × ℤ) :=
  cells.filter (fun kv => kv.1 != "week" && kv.1 != "year")

/-- Contribution of a leading `true`-run continuing an open run of length
`cur`, or 0 when the list does not start with `true`. -/
def padRun (cur : ℕ) : List Bool → ℕ
  | [] => 0
  | false :: _ => 0
  | true :: t => cur + leadRun t + 1

/-- Run accumulator equivalent of the streak loop on qualification flags. -/
def runAux : ℕ → List Bool → ℕ
  | _, [] => 0
  | cur, true :: rest => max (cur + 1) (runAux (cur + 1) rest)
  | _, false :: rest => runAux 0 rest

/-- Chronological ISO weeks carrying set counts `[5, 5, 3, 5, 5, 5]`. -/
def exampleStreakDates : List (ℤ × ℤ) :=
  List.replicate 5 ((0 : ℤ), (1 : ℤ)) ++ List.replicate 5 (0, 2) ++
  List.replicate 3 (0, 3) ++ List.replicate 5 (0, 4) ++
  List.replicate 5 (0, 5) ++ List.replicate 5 (0, 6)

instance : IsTotal MRow (fun a b => a.date ≤ b.date) :=
  ⟨fun a b => Int.le_total a.date b.date⟩

instance : IsTrans MRow (fun a b => a.date ≤ b.date) :=
  ⟨fun _ _ _ hab hbc => le_trans hab hbc⟩

/-- Per-token resolution of the non-broadcast path: a token containing
`body` is 120 (130 with `band`); a token passing the digit guard with at
most one dot is its decimal value; every other token is dropped. -/
def tokenValue (w₀ : List Char) : Option ℚ :=
  let w := lower (strip w₀)
  if containsSub bodyL w then some (if containsSub bandL w then 130 else 120)
  else if digitGuard w ∧ countDots w ≤ 1 then some (floatVal w)
  else none

/-- A token is clean when it does not trip the multi-dot float bug: it is
not a digits-and-dots token with two or more dots. -/
def cleanToken (w₀ : List Char) : Prop :=
  ¬ (digitGuard (lower (strip w₀)) = true ∧ 2 ≤ countDots (lower (strip w₀)))

instance (w₀ : List Char) : Decidable (cleanToken w₀) := by
  unfold cleanToken
  infer_instance

/-! ## Claim C3 (error handling of the weight parser) -/

/-- Claim C3: the claim states that `parseWeights` never raises for any
notation string and set count, with malformed tokens silently dropped.
The code violates it: the token `1.2.3` passes the guard
`w.replace('.', '').isdigit()` but `float('1.2.3')` raises `ValueError`,
so the whole parse (including the valid leading token `10`) is lost. -/
theorem parse_weights_raises_on_multidot_token :
    parse_weights "10;1.2.3".toList 2 = .error () ∧
    parse_weights "1.2.3".toList 1 ≠ .ok [] := by
  constructor
  · decide
  · decide

/-! ## Claim C8 (empty input to the personal-records table) -/

/-- Claim C8: the claim states every metrics operation on a table with no
rows returns a valid empty result; `calculate_pr_table` instead raises
`KeyError` on an empty table, because `pd.DataFrame([])` has no columns
and `pr_df['Reps']` fails. The progress-series function does return the
valid empty result `None`. -/
theorem calculate_pr_table_raises_on_empty :
    calculate_pr_table ([] : List NRow) = .error () ∧
    calculate_pr_table [⟨"Bench Press", 0, [], [], 0, 0⟩] = .error () ∧
    create_progress_chart ([] : List NRow) "Bench Press" = none := by
  exact ⟨rfl, rfl, rfl⟩

/-! ## Claim C7 (merging with an empty table) -/

/-- Claim C7: merging any table with an empty table passes the non-empty
source through unchanged, and merging two empty tables gives the empty
table, at both the `combine_workout_data` and the `load_combined_data`
level. -/
theorem merge_empty_identity (T G : List MRow) :
    combine_workout_data T [] = T ∧
    load_combined_data T [] = T ∧
    load_combined_data [] G = G ∧
    load_combined_data ([] : List MRow) [] = [] := by
  refine ⟨?_, ?_, ?_, ?_⟩
  · simp [combine_workout_data]
  · simp [load_combined_data]
  · cases G with
    | nil => simp [load_combined_data]
    | cons g t => simp [load_combined_data]
  · simp [load_combined_data]

/-! ## Claim C10 (set count fed to the weight parser) -/

/-- Claim C10: the set count handed to the weight parser is the number of
`;`-separated tokens of the raw `Reps` notation (counting empty and
non-numeric tokens), never the number of successfully parsed reps, which
can only be smaller; for `Reps = "8;;x"` and `Weight = "Body"` the count
is 3, a single rep parses, the bodyweight token broadcasts to 3 weights,
and the volume pairing truncates to one set. -/
theorem sets_count_counts_tokens :
    (∀ x : List Char, (parse_reps x).length ≤ sets_count x) ∧
    sets_count "8;;x".toList = 3 ∧
    parse_reps "8;;x".toList = [8] ∧
    parse_weights "Body".toList (sets_count "8;;x".toList) = .ok [70, 70, 70] ∧
    (volume_per_set (parse_reps "8;;x".toList) [70, 70, 70]).length = 1 := by
  refine ⟨?_, by decide, by decide, by decide, by decide⟩
  intro x
  unfold parse_reps sets_count
  by_cases h : strip x = []
  · simp [h]
  · simp only [h, if_false]
    exact List.length_filterMap_le _ _

/-! ## Claim C1 (tracker unit conversion) -/

/-- Claim C1 counterexample: the claim states weights tagged `POUND` pass
through unchanged and all other unit tags are converted into pounds. The
code does the opposite: a 100-`POUND` row comes out weighing
`100 * 0.453592` (its kilogram value, not 100), and a 100-`KILOGRAM` row
comes out unchanged (not converted to pounds). -/
theorem convert_units_claim_false :
    convert_units [⟨"Bench Press", 5, 100, "POUND"⟩, ⟨"Bench Press", 5, 100, "KILOGRAM"⟩] =
      [⟨"Bench Press", 5, 100 * poundFactor, "POUND"⟩, ⟨"Bench Press", 5, 100, "KILOGRAM"⟩] ∧
    (100 * poundFactor : ℚ) ≠ 100 := by
  constructor
  · rfl
  · norm_num [poundFactor]

/-- Claim C1 as amended: the pipeline multiplies weights tagged `POUND`
by `0.453592` (converting them to kilograms) and leaves weights with any
other unit tag unchanged, so the tracker table's canonical unit is
kilograms, not pounds. -/
theorem convert_units_pound_to_kg (rows : List GarminSet) (i : ℕ) (h : i < rows.length) :
    (convert_units rows).length = rows.length ∧
    (convert_units rows).getD i default =
      (if (rows.getD i default).weight_unit = "POUND"
       then { rows.getD i default with weight := (rows.getD i default).weight * poundFactor }
       else rows.getD i default) := by
  constructor
  · simp [convert_units]
  · have hlen : i < (convert_units rows).length := by simpa [convert_units] using h
    rw [List.getD_eq_getElem _ _ hlen, List.getD_eq_getElem _ _ h]
    simp [convert_units]

/-- Witness for `convert_units_pound_to_kg` at a concrete kilogram row. -/
theorem convert_units_pound_to_kg_witness :
    (convert_units [⟨"Row", 10, 100, "KILOGRAM"⟩]).getD 0 default =
      ⟨"Row", 10, 100, "KILOGRAM"⟩ :=
  (convert_units_pound_to_kg [⟨"Row", 10, 100, "KILOGRAM"⟩] 0 (by decide)).2

/-! ## Claim C9 (`calculate_streak` mutates its input) -/

/-- Claim C9 counterexample: the claim states no metrics entry point
mutates its input table; `calculate_streak` does, leaving `week` and
`year` columns on the caller's table. -/
theorem calculate_streak_mutates_input :
    (calculate_streak_df exDF).2 ≠ exDF ∧
    (calculate_streak_df exDF).2.cols = ["date", "Exercise", "week", "year"] := by
  constructor
  · decide
  · decide

/-- Filtering away a key is unaffected by upserting that key. -/
theorem filter_upsert (p : String → Bool) (l : List (String × ℤ)) (k : String) (v : ℤ)
    (hk : p k = false) :
    (upsert l k v).filter (fun kv => p kv.1) = l.filter (fun kv => p kv.1) := by
  induction l with
  | nil => simp [upsert, List.filter_cons, hk]
  | cons hd t ih =>
      obtain ⟨k₁, v₁⟩ := hd
      by_cases h : k₁ = k
      · subst h
        simp [upsert, List.filter_cons, hk]
      · simp only [upsert, if_neg h, List.filter_cons]
        by_cases hp : p k₁ <;> simp [hp, ih]

/-- `dropWY` is unaffected by the two column assignments of
`calculate_streak`. -/
theorem dropWY_upserts (c : List (String × ℤ)) (x y : ℤ) :
    dropWY (upsert (upsert c "week" x) "year" y) = dropWY c := by
  have h1 := filter_upsert (fun s => s != "week" && s != "year")
    (upsert c "week" x) "year" y (by decide)
  have h2 := filter_upsert (fun s => s != "week" && s != "year") c "week" x (by decide)
  exact h1.trans h2

/-- Claim C9 as amended: `calculate_streak` mutates its input table, but
only by assigning the `week` and `year` helper columns; row count, dates
and every other column's cells are unchanged, and the returned streak is
the pure streak of the rows' ISO weeks. -/
theorem calculate_streak_mutation_frame (df : DF) :
    ((calculate_streak_df df).2).rows.length = df.rows.length ∧
    ((calculate_streak_df df).2).rows.map (fun r => r.date) = df.rows.map (fun r => r.date) ∧
    ((calculate_streak_df df).2).rows.map (fun r => dropWY r.cells) =
      df.rows.map (fun r => dropWY r.cells) ∧
    ((calculate_streak_df df).2).cols =
      (let c := if "week" ∈ df.cols then df.cols else df.cols ++ ["week"]
       if "year" ∈ c then c else c ++ ["year"]) ∧
    (calculate_streak_df df).1.1 = calculate_streak (df.rows.map (fun r => r.date)) := by
  have hdate : ((calculate_streak_df df).2).rows.map (fun r => r.date) =
      df.rows.map (fun r => r.date) := by
    simp [calculate_streak_df, set_column, List.map_map, Function.comp]
  refine ⟨?_, hdate, ?_, ?_, ?_⟩
  · simp [calculate_streak_df, set_column]
  · simp only [calculate_streak_df, set_column, List.map_map]
    apply List.map_congr_left
    intro r _
    exact dropWY_upserts r.cells r.date.2 r.date.1
  · rfl
  · exact congrArg calculate_streak hdate

/-! ## Claim C6 (per-set volume, total volume, max weight) -/

/-- Index-wise value of the zipped volume list. -/
theorem getD_volume_per_set (R : List ℕ) (W : List ℚ) (i : ℕ)
    (h1 : i < R.length) (h2 : i < W.length) :
    (volume_per_set R W).getD i 0 = (R.getD i 0 : ℚ) * W.getD i 0 := by
  induction R generalizing W i with
  | nil => simp at h1
  | cons r R ih =>
      cases W with
      | nil => simp at h2
      | cons w W =>
          cases i with
          | zero => simp [volume_per_set]
          | succ n =>
              simp only [volume_per_set, List.zipWith_cons_cons, List.getD_cons_succ]
              exact ih W n (by simpa using h1) (by simpa using h2)

/-- A left fold of `max` is the seed or one of the elements. -/
theorem foldl_max_choice (t : List ℚ) (a : ℚ) :
    t.foldl max a = a ∨ t.foldl max a ∈ t := by
  induction t generalizing a with
  | nil => left; rfl
  | cons b t ih =>
      rcases ih (max a b) with h | h
      · rcases max_choice a b with hm | hm
        · left; rw [List.foldl_cons, h, hm]
        · right; rw [List.foldl_cons, h, hm]; exact List.mem_cons_self b t
      · right; exact List.mem_cons_of_mem b (by simpa [List.foldl_cons] using h)

/-- A left fold of `max` bounds its seed and all elements. -/
theorem le_foldl_max (t : List ℚ) (a : ℚ) :
    a ≤ t.foldl max a ∧ ∀ w ∈ t, w ≤ t.foldl max a := by
  induction t generalizing a with
  | nil => exact ⟨le_refl a, by simp⟩
  | cons b t ih =>
      obtain ⟨hseed, hmem⟩ := ih (max a b)
      refine ⟨le_trans (le_max_left a b) hseed, ?_⟩
      intro w hw
      rcases List.mem_cons.mp hw with hw | hw
      · rw [hw]; exact le_trans (le_max_right a b) hseed
      · exact hmem w hw

/-- Unfolding one paired set in the total volume. -/
theorem total_volume_cons (r : ℕ) (w : ℚ) (R : List ℕ) (W : List ℚ) :
    total_volume (r :: R) (w :: W) = (r : ℚ) * w + total_volume R W := by
  simp only [total_volume, volume_per_set, List.zipWith_cons_cons, List.sum_cons]

/-- Partial sums over the zip agree with sums over index ranges when the
lists have equal length. -/
theorem sum_volume_eq_range (R : List ℕ) (W : List ℚ) (h : R.length = W.length) :
    total_volume R W =
      ((List.range R.length).map (fun i => (R.getD i 0 : ℚ) * W.getD i 0)).sum := by
  induction R generalizing W with
  | nil => simp [total_volume, volume_per_set]
  | cons r R ih =>
      cases W with
      | nil => simp at h
      | cons w W =>
          have hlen : R.length = W.length := by simpa using h
          rw [total_volume_cons, ih W hlen]
          rw [List.length_cons, List.range_succ_eq_map, List.map_cons, List.sum_cons,
            List.map_map, List.getD_cons_zero, List.getD_cons_zero]
          congr 1

/-- Claim C6: per-set volumes are exactly the index-wise products over the
common prefix of the reps and weights lists (excess elements dropped),
total volume is their sum, max weight is the list maximum or 0 when the
list is empty, and for equal-length inputs the total volume agrees with
the direct indexed sum. -/
theorem volume_normalization_contract (R : List ℕ) (W : List ℚ) :
    (volume_per_set R W).length = min R.length W.length ∧
    (∀ i, i < R.length → i < W.length →
      (volume_per_set R W).getD i 0 = (R.getD i 0 : ℚ) * W.getD i 0) ∧
    total_volume R W = (volume_per_set R W).sum ∧
    (W = [] → max_weight W = 0) ∧
    (W ≠ [] → max_weight W ∈ W ∧ ∀ w ∈ W, w ≤ max_weight W) ∧
    (R.length = W.length →
      total_volume R W =
        ((List.range R.length).map (fun i => (R.getD i 0 : ℚ) * W.getD i 0)).sum) := by
  refine ⟨?_, fun i h1 h2 => getD_volume_per_set R W i h1 h2, rfl, ?_, ?_, sum_volume_eq_range R W⟩
  · simp only [volume_per_set, List.length_zipWith]
  · intro hW; subst hW; rfl
  · intro hW
    cases W with
    | nil => exact absurd rfl hW
    | cons w t =>
        obtain ⟨hseed, hmem⟩ := le_foldl_max t w
        constructor
        · rcases foldl_max_choice t w with h | h
          · rw [show max_weight (w :: t) = t.foldl max w from rfl, h]
            exact List.mem_cons_self w t
          · exact List.mem_cons_of_mem w h
        · intro v hv
          rcases List.mem_cons.mp hv with hv | hv
          · subst hv; exact hseed
          · exact hmem v hv

/-- Witness for `volume_normalization_contract` at the spec's bench-press
example row. -/
theorem volume_normalization_contract_witness :
    (volume_per_set [5, 10] [(225 : ℚ), 135]).getD 0 0 = ((5 : ℕ) : ℚ) * 225 ∧
    max_weight [(225 : ℚ), 135] ∈ [(225 : ℚ), 135] ∧
    total_volume [5, 10] [(225 : ℚ), 135] =
      ((List.range 2).map
        (fun i => (([5, 10] : List ℕ).getD i 0 : ℚ) * ([(225 : ℚ), 135].getD i 0))).sum := by
  have h := volume_normalization_contract [5, 10] [(225 : ℚ), 135]
  exact ⟨h.2.1 0 (by decide) (by decide), (h.2.2.2.2.1 (by simp)).1,
    h.2.2.2.2.2 (by decide)⟩

/-! ## Claim C5 (weekly streak is the longest qualifying run) -/

/-- The streak loop equals the run accumulator on the qualification flags,
with the running best folded in. -/
theorem streakLoop_eq (cs : List ℕ) : ∀ best cur,
    streakLoop best cur cs = max best (runAux cur (cs.map (fun c => decide (5 ≤ c)))) := by
  induction cs with
  | nil => intro best cur; simp [streakLoop, runAux]
  | cons c rest ih =>
      intro best cur
      by_cases h : 5 ≤ c
      · simp only [streakLoop, if_pos h, List.map_cons, decide_eq_true h, runAux, ih]
        omega
      · have hd : decide (5 ≤ c) = false := decide_eq_false h
        simp only [streakLoop, if_neg h, List.map_cons, hd, runAux, ih]

/-- The run accumulator computes the longest `true`-run, padded by the open
run it was started with. -/
theorem runAux_eq (bs : List Bool) : ∀ cur,
    runAux cur bs = max (padRun cur bs) (maxRun bs) := by
  induction bs with
  | nil => intro cur; rfl
  | cons b t ih =>
      intro cur
      cases b
      · rw [show runAux cur (false :: t) = runAux 0 t from rfl, ih 0]
        cases t with
        | nil => rfl
        | cons b2 t2 =>
            cases b2 <;> simp only [padRun, maxRun, leadRun] <;> omega
      · rw [show runAux cur (true :: t) = max (cur + 1) (runAux (cur + 1) t) from rfl,
          ih (cur + 1)]
        cases t with
        | nil => simp only [padRun, maxRun, leadRun]; omega
        | cons b2 t2 =>
            cases b2 <;> simp only [padRun, maxRun, leadRun] <;> omega

/-- The padding of a closed (zero-length) open run never beats the longest
run. -/
theorem padRun_zero_le (bs : List Bool) : padRun 0 bs ≤ maxRun bs := by
  cases bs with
  | nil => exact le_refl 0
  | cons b t =>
      cases b
      · simp [padRun]
      · simp only [padRun, maxRun, leadRun, Nat.zero_add]
        exact le_max_left _ _

/-- Claim C5: `calculate_streak` groups rows by ISO `(year, week)`, a week
qualifies exactly when its count is at least 5, and the reported streak is
the longest run of consecutive qualifying weeks in ascending `(year,
week)` order (a failing week resets the running counter and the maximum
is reported); weekly counts `[5, 5, 3, 5, 5, 5]` give streak 3. -/
theorem streak_is_longest_qualifying_run :
    (∀ dates : List (ℤ × ℤ),
      calculate_streak dates =
        maxRun ((weekly_counts dates).map (fun p => decide (5 ≤ p.2))) ∧
      List.Sorted lexLe ((weekly_counts dates).map Prod.fst) ∧
      ((weekly_counts dates).map Prod.fst).Nodup ∧
      (∀ p ∈ weekly_counts dates, p.2 = dates.count p.1) ∧
      (∀ d ∈ dates, d ∈ (weekly_counts dates).map Prod.fst)) ∧
    calculate_streak exampleStreakDates = 3 := by
  constructor
  · intro dates
    have hfst : (weekly_counts dates).map Prod.fst = List.insertionSort lexLe dates.dedup := by
      unfold weekly_counts
      rw [List.map_map,
        show (Prod.fst ∘ fun k : ℤ × ℤ => (k, dates.count k)) = id from rfl, List.map_id]
    refine ⟨?_, ?_, ?_, ?_, ?_⟩
    · unfold calculate_streak
      rw [streakLoop_eq, List.map_map, runAux_eq]
      rw [show List.map ((fun c => decide (5 ≤ c)) ∘ Prod.snd) (weekly_counts dates) =
            List.map (fun p : (ℤ × ℤ) × ℕ => decide (5 ≤ p.2)) (weekly_counts dates) from rfl]
      have hpad := padRun_zero_le ((weekly_counts dates).map
        (fun p : (ℤ × ℤ) × ℕ => decide (5 ≤ p.2)))
      omega
    · rw [hfst]
      exact List.sorted_insertionSort lexLe _
    · rw [hfst]
      exact ((List.perm_insertionSort lexLe _).nodup_iff).mpr (List.nodup_dedup dates)
    · intro p hp
      obtain ⟨k, hk, rfl⟩ := List.mem_map.mp hp
      rfl
    · intro d hd
      rw [hfst]
      exact (List.mem_insertionSort lexLe).mpr (List.mem_dedup.mpr hd)
  · decide

/-- Witness for `streak_is_longest_qualifying_run` at the example week
list, also consuming the per-week count fact at a concrete member. -/
theorem streak_is_longest_qualifying_run_witness :
    calculate_streak exampleStreakDates =
      maxRun ((weekly_counts exampleStreakDates).map (fun p => decide (5 ≤ p.2))) ∧
    (((0 : ℤ), (2 : ℤ)), (5 : ℕ)).2 = exampleStreakDates.count ((0 : ℤ), (2 : ℤ)) := by
  have h := streak_is_longest_qualifying_run.1 exampleStreakDates
  exact ⟨h.1, h.2.2.2.1 ((0, 2), 5) (by decide)⟩

/-! ## Claim C4 (merge deduplication) -/

/-- Deduplication only ever removes rows. -/
theorem dedupKeepLast_sublist (l : List MRow) : List.Sublist (dedupKeepLast l) l := by
  induction l with
  | nil => exact List.Sublist.refl []
  | cons r rest ih =>
      unfold dedupKeepLast
      by_cases h : rest.any (fun s => decide (rowKey s = rowKey r))
      · rw [if_pos h]
        exact ih.cons r
      · rw [if_neg h]
        exact ih.cons₂ r

/-- A key absent from the list is absent from its deduplication. -/
theorem countP_dedupKeepLast_zero (l : List MRow) (k : ℤ × String × Cell × Cell)
    (h : k ∉ l.map rowKey) :
    (dedupKeepLast l).countP (fun r => decide (rowKey r = k)) = 0 := by
  rw [List.countP_eq_zero]
  intro r hr
  simp only [decide_eq_true_eq]
  intro hrk
  exact h (List.mem_map.mpr ⟨r, (dedupKeepLast_sublist l).mem hr, hrk⟩)

/-- Deduplication keeps exactly one row per key present in the input. -/
theorem countP_dedupKeepLast_one (l : List MRow) (k : ℤ × String × Cell × Cell)
    (h : k ∈ l.map rowKey) :
    (dedupKeepLast l).countP (fun r => decide (rowKey r = k)) = 1 := by
  induction l with
  | nil => simp at h
  | cons r rest ih =>
      unfold dedupKeepLast
      by_cases hdup : rest.any (fun s => decide (rowKey s = rowKey r))
      · rw [if_pos hdup]
        apply ih
        rcases List.mem_map.mp h with ⟨s, hs, hsk⟩
        rcases List.mem_cons.mp hs with hs | hs
        · subst hs
          obtain ⟨u, hu, huk⟩ := List.any_eq_true.mp hdup
          simp only [decide_eq_true_eq] at huk
          exact List.mem_map.mpr ⟨u, hu, huk.trans hsk⟩
        · exact List.mem_map.mpr ⟨s, hs, hsk⟩
      · rw [if_neg hdup]
        by_cases hk : rowKey r = k
        · rw [List.countP_cons_of_pos _ _ (by simpa using hk)]
          have hnone : k ∉ rest.map rowKey := by
            intro hmem
            rcases List.mem_map.mp hmem with ⟨s, hs, hsk⟩
            exact hdup (List.any_eq_true.mpr ⟨s, hs, by simp [hsk, hk]⟩)
          rw [countP_dedupKeepLast_zero rest k hnone]
        · rw [List.countP_cons_of_neg _ _ (by simpa using hk)]
          apply ih
          rcases List.mem_map.mp h with ⟨s, hs, hsk⟩
          rcases List.mem_cons.mp hs with hs | hs
          · subst hs; exact absurd hsk hk
          · exact List.mem_map.mpr ⟨s, hs, hsk⟩

/-- Claim C4: after concatenating the sheet and tracker tables, the merge
sorts rows by date and deduplicates on `(date, Exercise, Reps, Weight)`
keeping the last occurrence in sort order; every key present in the
concatenation survives in exactly one row, every merged row comes from
one of the sources, and the merged table is date-sorted. -/
theorem merge_dedup_exactly_one (sheets garmin : List MRow) (k : ℤ × String × Cell × Cell)
    (hg : garmin ≠ []) (hk : k ∈ (sheets ++ garmin).map rowKey) :
    combine_workout_data sheets garmin =
      dedupKeepLast (List.insertionSort (fun a b => a.date ≤ b.date) (sheets ++ garmin)) ∧
    (combine_workout_data sheets garmin).countP (fun r => decide (rowKey r = k)) = 1 ∧
    (∀ r ∈ combine_workout_data sheets garmin, r ∈ sheets ++ garmin) ∧
    List.Sorted (fun a b => a.date ≤ b.date) (combine_workout_data sheets garmin) := by
  have hne : (garmin.isEmpty) = false := by
    cases garmin with
    | nil => exact absurd rfl hg
    | cons g t => rfl
  have hcomb : combine_workout_data sheets garmin =
      dedupKeepLast (List.insertionSort (fun a b => a.date ≤ b.date) (sheets ++ garmin)) := by
    unfold combine_workout_data
    rw [hne]
    rfl
  have hperm := List.perm_insertionSort (fun a b : MRow => a.date ≤ b.date) (sheets ++ garmin)
  refine ⟨hcomb, ?_, ?_, ?_⟩
  · rw [hcomb]
    apply countP_dedupKeepLast_one
    exact (hperm.map rowKey).mem_iff.mpr hk
  · intro r hr
    rw [hcomb] at hr
    exact hperm.mem_iff.mp ((dedupKeepLast_sublist _).mem hr)
  · rw [hcomb]
    exact (List.sorted_insertionSort _ _).sublist (dedupKeepLast_sublist _)

/-- Witness for `merge_dedup_exactly_one`: one sheet row and one tracker
row sharing the full key collapse to a single merged row. -/
theorem merge_dedup_exactly_one_witness :
    (combine_workout_data [⟨1, "Bench Press", Cell.str "5", Cell.str "225", 0⟩]
        [⟨1, "Bench Press", Cell.str "5", Cell.str "225", 1⟩]).countP
      (fun r => decide (rowKey r = (1, "Bench Press", Cell.str "5", Cell.str "225"))) = 1 :=
  (merge_dedup_exactly_one [⟨1, "Bench Press", Cell.str "5", Cell.str "225", 0⟩]
    [⟨1, "Bench Press", Cell.str "5", Cell.str "225", 1⟩]
    (1, "Bench Press", Cell.str "5", Cell.str "225")
    (by decide) (by decide)).2.1

/-! ## Claim C2 (the parse_weights case split) -/

/-- On clean tokens the imperative weight loop is the filter-map of the
per-token resolution. -/
theorem procTokens_eq_filterMap (items : List (List Char))
    (h : ∀ w ∈ items, cleanToken w) :
    procTokens items = .ok (items.filterMap tokenValue) := by
  induction items with
  | nil => rfl
  | cons w rest ih =>
      have hw := h w (List.mem_cons_self w rest)
      have hrest := ih (fun x hx => h x (List.mem_cons_of_mem w hx))
      by_cases hb : containsSub bodyL (lower (strip w)) = true
      · simp only [procTokens, tokenValue, hb, if_pos, List.filterMap_cons, hrest,
          Except.map, if_true]
      · by_cases hg : digitGuard (lower (strip w)) = true
        · have hd : countDots (lower (strip w)) ≤ 1 := by
            by_contra hcon
            exact hw ⟨hg, by omega⟩
          simp only [procTokens, tokenValue, hb, hg, hd, List.filterMap_cons, hrest,
            Except.map, if_true, if_false, Bool.false_eq_true, and_true, if_pos,
            decide_eq_true_eq]
        · simp only [procTokens, tokenValue, hb, hg, List.filterMap_cons, hrest]
          simp [hb, hg]

/-- Claim C2 counterexample: the claim states that in the per-token path a
token that is neither a non-negative decimal nor a bodyweight keyword is
dropped; the token `1..2` is neither, yet `parse_weights` raises instead
of returning the empty weight list. -/
theorem parse_weights_multidot_not_dropped :
    parse_weights "1..2".toList 1 = .error () ∧
    parse_weights "1..2".toList 1 ≠ .ok [] := by
  constructor
  · decide
  · decide

/-- Claim C2 as amended: the case split of `parse_weights` holds as
claimed, except that a digits-and-dots token with two or more dots raises
an error instead of being dropped. A `;`-free notation containing `body`
with more than one set broadcasts 70 (80 with `band`) `setCount` times;
in every other case tokens are resolved independently by `tokenValue`
(body 120, body-with-band 130, decimals kept, others dropped) whenever no
token trips the multi-dot bug; in particular `parseWeights("Body", 3) =
[70, 70, 70]` and `parseWeights("Body", 1) = [120]`. -/
theorem parse_weights_case_split :
    (∀ (x w₀ : List Char) (n : ℕ), strip x ≠ [] → splitSemi x = [w₀] →
      containsSub bodyL (lower w₀) = true → 1 < n →
      parse_weights x n =
        .ok (List.replicate n (if containsSub bandL (lower w₀) then (80 : ℚ) else 70))) ∧
    (∀ (x : List Char) (n : ℕ), strip x ≠ [] →
      ¬((splitSemi x).length = 1 ∧
        containsSub bodyL (lower ((splitSemi x).headI)) = true ∧ 1 < n) →
      (∀ w ∈ splitSemi x, cleanToken w) →
      parse_weights x n = .ok ((splitSemi x).filterMap tokenValue)) ∧
    parse_weights "Body".toList 3 = .ok [70, 70, 70] ∧
    parse_weights "Body".toList 1 = .ok [120] ∧
    parse_weights "Body+Band".toList 3 = .ok [80, 80, 80] ∧
    parse_weights "135;155;175".toList 3 = .ok [135, 155, 175] := by
  refine ⟨?_, ?_, by decide, by decide, by decide, by decide⟩
  · intro x w₀ n hblank hsplit hbody hn
    have hcond : (containsSub bodyL (lower w₀) && decide (1 < n)) = true := by
      rw [hbody, decide_eq_true hn]
      rfl
    unfold parse_weights
    simp only [if_neg hblank, hsplit]
    rw [hcond]
    by_cases hband : containsSub bandL (lower w₀) = true
    · simp [hband]
    · simp [hband]
  · intro x n hblank hcond hclean
    unfold parse_weights
    rcases hsplit : splitSemi x with _ | ⟨w₀, rest⟩
    · rw [hsplit] at hclean
      simp only [if_neg hblank, hsplit]
      exact procTokens_eq_filterMap [] hclean
    · cases rest with
      | nil =>
          rw [hsplit] at hclean hcond
          have hfalse : (containsSub bodyL (lower w₀) && decide (1 < n)) = false := by
            by_cases hb : containsSub bodyL (lower w₀) = true
            · have hn : ¬ 1 < n := fun hlt => hcond ⟨rfl, hb, hlt⟩
              rw [hb, decide_eq_false hn]
              rfl
            · rw [Bool.not_eq_true] at hb
              rw [hb]
              rfl
          simp only [if_neg hblank, hsplit]
          rw [hfalse]
          simp only [Bool.false_eq_true, if_false]
          exact procTokens_eq_filterMap [w₀] hclean
      | cons w₁ rest₂ =>
          rw [hsplit] at hclean
          simp only [if_neg hblank, hsplit]
          exact procTokens_eq_filterMap (w₀ :: w₁ :: rest₂) hclean

/-- Witness for `parse_weights_case_split`: the broadcast branch at a
fresh bodyweight token and two sets, and the per-token branch at a
numeric list. -/
theorem parse_weights_case_split_witness :
    parse_weights "Bodyweight".toList 2 =
      .ok (List.replicate 2 (if containsSub bandL (lower "Bodyweight".toList) then (80 : ℚ)
        else 70)) ∧
    parse_weights "140;90".toList 2 =
      .ok ((splitSemi "140;90".toList).filterMap tokenValue) := by
  constructor
  · exact parse_weights_case_split.1 "Bodyweight".toList "Bodyweight".toList 2
      (by decide) (by decide) (by decide) (by decide)
  · exact parse_weights_case_split.2.1 "140;90".toList 2 (by decide) (by decide) (by decide)
